import Mathlib

/-!
Verification development for the `mure` batched concurrent HTTP request
driver.  The Python sources are shallowly embedded: bytes are `List Nat`
(each entry < 256), Python exceptions are an explicit error type, and the
stateful queue / consumption-tracking classes become explicit state-passing
functions.  Hashing uses a full executable SHA-256 over `Nat` words.
-/

namespace Py

/-- Python exceptions that the embedded code can raise. -/
inductive PyErr where
  | typeError (msg : String)
  | keyError (key : String)
  | valueError (msg : String)
  | lookupError (msg : String)
  deriving Repr, DecidableEq

/-- UTF-8 encoding of a single character (standard 1-4 byte encoding),
as performed by `str.encode("utf-8")` / `bytes(..., "utf-8")` in Python. -/
def charUtf8 (c : Char) : List Nat :=
  let n := c.toNat
  if n < 0x80 then [n]
  else if n < 0x800 then
    [0xC0 ||| (n >>> 6), 0x80 ||| (n &&& 63)]
  else if n < 0x10000 then
    [0xE0 ||| (n >>> 12), 0x80 ||| ((n >>> 6) &&& 63), 0x80 ||| (n &&& 63)]
  else
    [0xF0 ||| (n >>> 18), 0x80 ||| ((n >>> 12) &&& 63),
     0x80 ||| ((n >>> 6) &&& 63), 0x80 ||| (n &&& 63)]

/-- UTF-8 encoding of a string to bytes. -/
def utf8Encode (s : String) : List Nat :=
  (s.data.map charUtf8).flatten

end Py

namespace SHA256

/-- 32-bit mask. -/
def mask32 : Nat := 4294967295

/-- Addition modulo 2^32. -/
def add32 (a b : Nat) : Nat := (a + b) &&& mask32

/-- Rotate a 32-bit word right by `n` bits. -/
def rotr (n x : Nat) : Nat := ((x >>> n) ||| (x <<< (32 - n))) &&& mask32

/-- The σ0 message-schedule function. -/
def sigma0 (x : Nat) : Nat := (rotr 7 x) ^^^ (rotr 18 x) ^^^ (x >>> 3)

/-- The σ1 message-schedule function. -/
def sigma1 (x : Nat) : Nat := (rotr 17 x) ^^^ (rotr 19 x) ^^^ (x >>> 10)

/-- The Σ0 compression function. -/
def bigSigma0 (x : Nat) : Nat := (rotr 2 x) ^^^ (rotr 13 x) ^^^ (rotr 22 x)

/-- The Σ1 compression function. -/
def bigSigma1 (x : Nat) : Nat := (rotr 6 x) ^^^ (rotr 11 x) ^^^ (rotr 25 x)

/-- The Ch function (complement computed by xor with the 32-bit mask). -/
def ch (x y z : Nat) : Nat := (x &&& y) ^^^ ((x ^^^ mask32) &&& z)

/-- The Maj function. -/
def maj (x y z : Nat) : Nat := (x &&& y) ^^^ (x &&& z) ^^^ (y &&& z)

/-- The 64 round constants of FIPS 180-4, written in decimal. -/
def K : List Nat :=
  [1116352408, 1899447441, 3049323471, 3921009573, 961987163, 1508970993,
   2453635748, 2870763221, 3624381080, 310598401, 607225278, 1426881987,
   1925078388, 2162078206, 2614888103, 3248222580, 3835390401, 4022224774,
   264347078, 604807628, 770255983, 1249150122, 1555081692, 1996064986,
   2554220882, 2821834349, 2952996808, 3210313671, 3336571891, 3584528711,
   113926993, 338241895, 666307205, 773529912, 1294757372, 1396182291,
   1695183700, 1986661051, 2177026350, 2456956037, 2730485921, 2820302411,
   3259730800, 3345764771, 3516065817, 3600352804, 4094571909, 275423344,
   430227734, 506948616, 659060556, 883997877, 958139571, 1322822218,
   1537002063, 1747873779, 1955562222, 2024104815, 2227730452, 2361852424,
   2428436474, 2756734187, 3204031479, 3329325298]

/-- The eight initial hash words of FIPS 180-4, written in decimal. -/
def initH : List Nat :=
  [1779033703, 3144134277, 1013904242, 2773480762,
   1359893119, 2600822924, 528734635, 1541459225]

/-- Message padding: append 0x80, zero bytes up to 56 mod 64, then the
64-bit big-endian bit length. -/
def pad (msg : List Nat) : List Nat :=
  let len := msg.length
  let bitLen := len * 8
  let zeros := (120 - ((len + 1) % 64)) % 64
  msg ++ 0x80 :: List.replicate zeros 0 ++
    [(bitLen >>> 56) &&& 255, (bitLen >>> 48) &&& 255, (bitLen >>> 40) &&& 255,
     (bitLen >>> 32) &&& 255, (bitLen >>> 24) &&& 255, (bitLen >>> 16) &&& 255,
     (bitLen >>> 8) &&& 255, bitLen &&& 255]

/-- Group bytes into big-endian 32-bit words. -/
def toWords : List Nat → List Nat
  | a :: b :: c :: d :: rest =>
      ((((a <<< 8) ||| b) <<< 8 ||| c) <<< 8 ||| d) :: toWords rest
  | _ => []

/-- Split a word list into blocks of 16 words (fuel-based for structural
recursion; the fuel is the list length, enough for blocks of 16). -/
def blocksAux : Nat → List Nat → List (List Nat)
  | 0, _ => []
  | _, [] => []
  | fuel + 1, ws => ws.take 16 :: blocksAux fuel (ws.drop 16)

/-- Split a word list into blocks of 16 words. -/
def blocks (ws : List Nat) : List (List Nat) :=
  blocksAux ws.length ws

/-- Extend a 16-word block into a 64-word message schedule. -/
def schedule (block : List Nat) : List Nat :=
  (List.range 48).foldl
    (fun w _ =>
      let t := w.length
      w ++ [add32 (add32 (sigma1 (w.getD (t - 2) 0)) (w.getD (t - 7) 0))
              (add32 (sigma0 (w.getD (t - 15) 0)) (w.getD (t - 16) 0))])
    block

/-- One round of the compression function. -/
def round (ws : List Nat) (st : List Nat) (i : Nat) : List Nat :=
  match st with
  | [a, b, c, d, e, f, g, h] =>
      let t1 := add32 h (add32 (bigSigma1 e)
                  (add32 (ch e f g) (add32 (K.getD i 0) (ws.getD i 0))))
      let t2 := add32 (bigSigma0 a) (maj a b c)
      [add32 t1 t2, a, b, c, add32 d t1, e, f, g]
  | st => st

/-- Process one 16-word block against the current hash state. -/
def compress (hs : List Nat) (block : List Nat) : List Nat :=
  let ws := schedule block
  let fin := (List.range 64).foldl (round ws) hs
  List.zipWith add32 hs fin

/-- SHA-256 of a byte string, as the eight 32-bit words of the digest. -/
def sha256Words (msg : List Nat) : List Nat :=
  (blocks (toWords (pad msg))).foldl compress initH

/-- A hex digit character (lowercase), as produced by `hexdigest()`. -/
def hexChar (n : Nat) : Char :=
  if n < 10 then Char.ofNat (48 + n) else Char.ofNat (87 + n)

/-- Eight hex characters of a 32-bit word, big-endian. -/
def wordHex (w : Nat) : List Char :=
  (List.range 8).map (fun i => hexChar ((w >>> ((7 - i) * 4)) &&& 15))

/-- `hashlib.sha256(msg).hexdigest()`: the digest as 64 lowercase hex digits. -/
def sha256Hex (msg : List Nat) : String :=
  ⟨((sha256Words msg).map wordHex).flatten⟩

end SHA256

namespace Py

/-- Two lowercase hex digits of a byte. -/
def hexPair (b : Nat) : String :=
  String.singleton (SHA256.hexChar (b / 16 % 16)) ++ String.singleton (SHA256.hexChar (b % 16))

/-- The universe of Python values that can reach `Request._normalize` and the
JSON serializers: `None`, booleans, ints, floats (kept as uninterpreted
literal tokens), strings, `bytes`, `bytearray`, sequences, string-keyed
mappings, and opaque objects.  An opaque object carries the result of
`orjson.dumps` applied to it (`some s` when orjson can serialize it natively,
`none` when orjson raises `TypeError`) together with its `repr`. -/
inductive PyVal where
  | pynone
  | bool (b : Bool)
  | int (n : Int)
  | float (lit : String)
  | str (s : String)
  | bytes (bs : List Nat)
  | bytearray (bs : List Nat)
  | list (xs : List PyVal)
  | dict (entries : List (String × PyVal))
  | obj (jsonSer : Option String) (debugRepr : String)

/-- Executable lexicographic comparison of character lists by code point
(Python's string `<=`); `strLe_iff_not_lex` and `pyStrLe_iff` below relate
it to Mathlib's `String` order. -/
def strLe : List Char → List Char → Bool
  | [], _ => true
  | _ :: _, [] => false
  | c :: cs, d :: ds =>
      if c < d then true
      else if d < c then false
      else strLe cs ds

/-- Executable string comparison. -/
def pyStrLe (a b : String) : Bool := strLe a.data b.data

/-- Python whitespace as stripped by `str.strip()` (ASCII subset). -/
def isPySpace (c : Char) : Bool :=
  c = ' ' || c = '\t' || c = '\n' || c = '\r' || c = '\x0b' || c = '\x0c'

/-- `str.strip()` (ASCII whitespace; the strings this code strips are
HTTP methods and header names). -/
def pyStrip (s : String) : String :=
  ⟨((s.data.dropWhile isPySpace).reverse.dropWhile isPySpace).reverse⟩

/-- ASCII upper-casing of one character. -/
def asciiUpperChar (c : Char) : Char :=
  if 'a' ≤ c ∧ c ≤ 'z' then Char.ofNat (c.toNat - 32) else c

/-- `str.upper()` (ASCII; methods and header names are ASCII). -/
def pyUpper (s : String) : String := ⟨s.data.map asciiUpperChar⟩

/-- ASCII lower-casing of one character. -/
def asciiLowerChar (c : Char) : Char :=
  if 'A' ≤ c ∧ c ≤ 'Z' then Char.ofNat (c.toNat + 32) else c

/-- `str.lower()` (ASCII; schemes, hosts and header names are ASCII). -/
def pyLower (s : String) : String := ⟨s.data.map asciiLowerChar⟩

/-- Insert an entry into a key-sorted association list, before the first
entry with a key that is not smaller (stable insertion). -/
def insertByKey {α : Type} (e : String × α) : List (String × α) → List (String × α)
  | [] => [e]
  | f :: fs => if pyStrLe e.1 f.1 then e :: f :: fs else f :: insertByKey e fs

/-- Stable sort of an association list by key, as Python's
`sorted(items, key=lambda item: str(item[0]))` (all keys here are strings). -/
def sortByKey {α : Type} : List (String × α) → List (String × α)
  | [] => []
  | e :: es => insertByKey e (sortByKey es)

/-- Escape one byte for `repr` of a bytes/bytearray object (CPython rules:
backslash, the quote character, tab, newline, carriage return escaped;
printable ASCII verbatim; everything else as a hex escape). -/
def byteEsc (quote : Char) (b : Nat) : String :=
  if b = 92 then "\\\\"
  else if b = quote.toNat then "\\" ++ String.singleton quote
  else if b = 9 then "\\t"
  else if b = 10 then "\\n"
  else if b = 13 then "\\r"
  else if 32 ≤ b ∧ b ≤ 126 then String.singleton (Char.ofNat b)
  else "\\x" ++ hexPair b

/-- CPython `repr` of a `bytes` object: single quotes unless the bytes
contain a single quote and no double quote. -/
def bytesRepr (bs : List Nat) : String :=
  let quote := if bs.contains 39 ∧ ¬ bs.contains 34 then '"' else '\''
  "b" ++ String.singleton quote ++ String.join (bs.map (byteEsc quote))
    ++ String.singleton quote

/-- CPython `repr` of a `bytearray` object. -/
def bytearrayRepr (bs : List Nat) : String :=
  "bytearray(" ++ bytesRepr bs ++ ")"

/-- Escape one character for a JSON string literal (standard JSON escaping
as performed by both `json.dumps(..., ensure_ascii=False)` and `orjson`). -/
def jsonEscChar (c : Char) : String :=
  if c = '"' then "\\\""
  else if c = '\\' then "\\\\"
  else if c = '\x08' then "\\b"
  else if c = '\x09' then "\\t"
  else if c = '\x0a' then "\\n"
  else if c = '\x0c' then "\\f"
  else if c = '\x0d' then "\\r"
  else if c.toNat < 32 then "\\u00" ++ hexPair c.toNat
  else String.singleton c

/-- A JSON string literal. -/
def jsonQuote (s : String) : String :=
  "\"" ++ String.join (s.data.map jsonEscChar) ++ "\""

/-- Serializer configuration: `orjson.dumps` emits compact separators,
`json.dumps` (defaults) emits `", "` and `": "`; both can sort keys. -/
structure JsonCfg where
  itemSep : String
  kvSep : String
  sortKeys : Bool

/-- `orjson.dumps(..., option=orjson.OPT_SORT_KEYS)`. -/
def orjsonSortCfg : JsonCfg := ⟨",", ":", true⟩

/-- `json.dumps(..., sort_keys=True, ensure_ascii=False)` (default separators). -/
def pyJsonSortCfg : JsonCfg := ⟨", ", ": ", true⟩

mutual

/-- JSON serialization of a Python value; `none` models a `TypeError`
(raised by both serializers on `bytes` and `bytearray`, and on opaque
objects the library cannot handle). -/
def jsonDumps (cfg : JsonCfg) : PyVal → Option String
  | .pynone => some "null"
  | .bool b => some (cond b "true" "false")
  | .int n => some (toString n)
  | .float lit => some lit
  | .str s => some (jsonQuote s)
  | .bytes _ => Option.none
  | .bytearray _ => Option.none
  | .obj js _ => js
  | .list xs =>
      (jsonDumpsList cfg xs).map
        (fun parts => "[" ++ String.intercalate cfg.itemSep parts ++ "]")
  | .dict es =>
      (jsonDumpsEntries cfg es).map
        (fun kvs =>
          "\x7b" ++
            String.intercalate cfg.itemSep
              (((if cfg.sortKeys then sortByKey kvs else kvs)).map
                (fun kv => jsonQuote kv.1 ++ cfg.kvSep ++ kv.2)) ++ "\x7d")

/-- Serialize each element of a list. -/
def jsonDumpsList (cfg : JsonCfg) : List PyVal → Option (List String)
  | [] => some []
  | x :: xs =>
      match jsonDumps cfg x, jsonDumpsList cfg xs with
      | some s, some rest => some (s :: rest)
      | _, _ => Option.none

/-- Serialize each entry of a mapping, keeping the keys for sorting. -/
def jsonDumpsEntries (cfg : JsonCfg) : List (String × PyVal) → Option (List (String × String))
  | [] => some []
  | (k, v) :: es =>
      match jsonDumps cfg v, jsonDumpsEntries cfg es with
      | some s, some rest => some ((k, s) :: rest)
      | _, _ => Option.none

end

mutual

/-- `Request._normalize` of `src/mure/models.py`: `None` maps to itself;
`bytes` to `{"__type": "bytes", "sha256": <hex digest>}`; `str`/`int`/
`float`/`bool` to themselves; mappings to recursively normalized mappings
with entries sorted by key; sequences other than `str`/`bytes`/`bytearray`
to the list of normalized elements; anything else to
`orjson.dumps(value, option=orjson.OPT_SORT_KEYS).decode("utf-8")`, or to
`repr(value)` when orjson raises `TypeError` (orjson always raises on
`bytearray`).  The mapping clause normalizes the entries and then sorts;
`pyNormalizeEntries_sortByKey` below shows this equals the source's
sort-then-normalize order. -/
def pyNormalize : PyVal → PyVal
  | .pynone => .pynone
  | .bytes bs =>
      .dict [("__type", .str "bytes"), ("sha256", .str (SHA256.sha256Hex bs))]
  | .str s => .str s
  | .int n => .int n
  | .float lit => .float lit
  | .bool b => .bool b
  | .dict es => .dict (sortByKey (pyNormalizeEntries es))
  | .list xs => .list (pyNormalizeList xs)
  | .bytearray bs => .str (bytearrayRepr bs)
  | .obj js rep => .str (js.getD rep)

/-- `_normalize` mapped over the elements of a sequence. -/
def pyNormalizeList : List PyVal → List PyVal
  | [] => []
  | x :: xs => pyNormalize x :: pyNormalizeList xs

/-- `_normalize` mapped over the values of a mapping's entries. -/
def pyNormalizeEntries : List (String × PyVal) → List (String × PyVal)
  | [] => []
  | (k, v) :: es => (k, pyNormalize v) :: pyNormalizeEntries es

end

/-- The Unicode replacement character U+FFFD. -/
def replacementChar : Char := Char.ofNat 0xFFFD

/-- Is the byte a UTF-8 continuation byte (`0b10xxxxxx`)? -/
def isCont (b : Nat) : Bool := 0x80 ≤ b && b ≤ 0xBF

/-- `bytes.decode("utf-8", errors="replace")`: standard UTF-8 decoding,
substituting U+FFFD for each maximal invalid subpart (CPython's policy).
Fuel-based recursion (each step consumes at least one byte, so the byte
count is sufficient fuel). -/
def utf8DecodeReplaceAux : Nat → List Nat → List Char
  | 0, _ => []
  | _, [] => []
  | fuel + 1, b :: rest =>
    if b < 0x80 then Char.ofNat b :: utf8DecodeReplaceAux fuel rest
    else if 0xC2 ≤ b && b ≤ 0xDF then
      match rest with
      | c :: rest2 =>
          if isCont c then
            Char.ofNat (((b &&& 0x1F) <<< 6) ||| (c &&& 0x3F)) :: utf8DecodeReplaceAux fuel rest2
          else replacementChar :: utf8DecodeReplaceAux fuel rest
      | [] => [replacementChar]
    else if 0xE0 ≤ b && b ≤ 0xEF then
      match rest with
      | c :: rest2 =>
          let okC :=
            if b = 0xE0 then 0xA0 ≤ c && c ≤ 0xBF
            else if b = 0xED then 0x80 ≤ c && c ≤ 0x9F
            else isCont c
          if okC then
            match rest2 with
            | d :: rest3 =>
                if isCont d then
                  Char.ofNat (((b &&& 0x0F) <<< 12) ||| ((c &&& 0x3F) <<< 6) ||| (d &&& 0x3F))
                    :: utf8DecodeReplaceAux fuel rest3
                else replacementChar :: utf8DecodeReplaceAux fuel rest2
            | [] => [replacementChar]
          else replacementChar :: utf8DecodeReplaceAux fuel rest
      | [] => [replacementChar]
    else if 0xF0 ≤ b && b ≤ 0xF4 then
      match rest with
      | c :: rest2 =>
          let okC :=
            if b = 0xF0 then 0x90 ≤ c && c ≤ 0xBF
            else if b = 0xF4 then 0x80 ≤ c && c ≤ 0x8F
            else isCont c
          if okC then
            match rest2 with
            | d :: rest3 =>
                if isCont d then
                  match rest3 with
                  | e :: rest4 =>
                      if isCont e then
                        Char.ofNat (((b &&& 0x07) <<< 18) ||| ((c &&& 0x3F) <<< 12)
                            ||| ((d &&& 0x3F) <<< 6) ||| (e &&& 0x3F))
                          :: utf8DecodeReplaceAux fuel rest4
                      else replacementChar :: utf8DecodeReplaceAux fuel rest3
                  | [] => [replacementChar]
                else replacementChar :: utf8DecodeReplaceAux fuel rest2
            | [] => [replacementChar]
          else replacementChar :: utf8DecodeReplaceAux fuel rest
      | [] => [replacementChar]
    else replacementChar :: utf8DecodeReplaceAux fuel rest

/-- `bytes.decode("utf-8", errors="replace")`. -/
def utf8DecodeReplace (bs : List Nat) : List Char :=
  utf8DecodeReplaceAux bs.length bs

/-- Split a character list at the first occurrence of `sep`; the second
component is `none` when `sep` does not occur. -/
def splitOnFirstChar (sep : Char) : List Char → List Char × Option (List Char)
  | [] => ([], Option.none)
  | c :: cs =>
      if c = sep then ([], some cs)
      else
        let r := splitOnFirstChar sep cs
        (c :: r.1, r.2)

/-- Split a character list at every occurrence of `sep`. -/
def splitAllChar (sep : Char) : List Char → List (List Char)
  | [] => [[]]
  | c :: cs =>
      if c = sep then [] :: splitAllChar sep cs
      else
        match splitAllChar sep cs with
        | g :: gs => (c :: g) :: gs
        | [] => [[c]]

/-- Hex digit value of a character, if it is one. -/
def hexVal (c : Char) : Option Nat :=
  if '0' ≤ c ∧ c ≤ '9' then some (c.toNat - 48)
  else if 'a' ≤ c ∧ c ≤ 'f' then some (c.toNat - 87)
  else if 'A' ≤ c ∧ c ≤ 'F' then some (c.toNat - 70)
  else Option.none

/-- Percent-decoding to bytes with `+` as space, as
`urllib.parse.unquote_plus` does before UTF-8 decoding. -/
def percentBytes : List Char → List Nat
  | [] => []
  | '%' :: a :: b :: rest =>
      match hexVal a, hexVal b with
      | some ha, some hb => (ha * 16 + hb) :: percentBytes rest
      | _, _ => charUtf8 '%' ++ percentBytes (a :: b :: rest)
  | '+' :: rest => 32 :: percentBytes rest
  | c :: rest => charUtf8 c ++ percentBytes rest

/-- `urllib.parse.unquote_plus` with the UTF-8 `errors="replace"` policy. -/
def unquotePlus (s : String) : String :=
  ⟨utf8DecodeReplace (percentBytes s.data)⟩

/-- `urllib.parse.parse_qsl` with default arguments: split on `&`, skip
empty fields, skip fields without `=` and fields with an empty value
(`keep_blank_values=False`), and unquote names and values. -/
def parseQsl (qs : String) : List (String × String) :=
  (splitAllChar '&' qs.data).foldr
    (fun field acc =>
      if field = [] then acc
      else
        match splitOnFirstChar '=' field with
        | (_, Option.none) => acc
        | (_, some []) => acc
        | (name, some value) =>
            (unquotePlus ⟨name⟩, unquotePlus ⟨value⟩) :: acc)
    []

/-- Append a value to a dict-of-lists under a key, preserving Python dict
insertion order (new keys go to the end). -/
def qsAppend : List (String × List String) → String → String → List (String × List String)
  | [], k, v => [(k, [v])]
  | (k2, vs) :: rest, k, v =>
      if k2 = k then (k2, vs ++ [v]) :: rest
      else (k2, vs) :: qsAppend rest k v

/-- `urllib.parse.parse_qs` with default arguments: a dict mapping each
name to the list of its values in order of appearance. -/
def parseQs (qs : String) : List (String × List String) :=
  (parseQsl qs).foldl (fun d kv => qsAppend d kv.1 kv.2) []

/-- The components produced by `urllib.parse.urlparse` (the `;params`
split of the last path segment is not modelled; none of the URLs in this
development contain `;`). -/
structure ParseResult where
  scheme : String
  netloc : String
  path : String
  query : String
  fragment : String

/-- Characters allowed in a URL scheme after the first letter. -/
def isSchemeChar (c : Char) : Bool :=
  c.isAlphanum || c = '+' || c = '-' || c = '.'

/-- `urllib.parse.urlparse`: split off the fragment at the first `#`;
recognize a scheme before `:` when it is a letter followed by scheme
characters (lower-casing it); take the netloc after `//` up to the next
`/` or `?`; split the query at the first `?`. -/
def pyUrlparse (url : String) : ParseResult :=
  let cs := url.data
  let withoutFrag := splitOnFirstChar '#' cs
  let frag : String := ⟨(withoutFrag.2).getD []⟩
  let beforeFrag := withoutFrag.1
  let schemeSplit := splitOnFirstChar ':' beforeFrag
  let schemeRest : String × List Char :=
    match schemeSplit.2 with
    | some r =>
        match schemeSplit.1 with
        | [] => ("", beforeFrag)
        | c :: cs2 =>
            if c.isAlpha && cs2.all isSchemeChar then
              (pyLower ⟨c :: cs2⟩, r)
            else ("", beforeFrag)
    | Option.none => ("", beforeFrag)
  let scheme := schemeRest.1
  let rest := schemeRest.2
  let netlocRest : String × List Char :=
    match rest with
    | '/' :: '/' :: r =>
        (⟨r.takeWhile (fun c => c ≠ '/' && c ≠ '?')⟩,
         r.dropWhile (fun c => c ≠ '/' && c ≠ '?'))
    | r => ("", r)
  let netloc := netlocRest.1
  let pathQuery := splitOnFirstChar '?' netlocRest.2
  { scheme := scheme
    netloc := netloc
    path := ⟨pathQuery.1⟩
    query := ⟨(pathQuery.2).getD []⟩
    fragment := frag }

/-- Update a Python dict (insertion-ordered association list): replace the
value of an existing key in place, or append a new key at the end. -/
def dictUpd {α : Type} : List (String × α) → String → α → List (String × α)
  | [], k, v => [(k, v)]
  | (k2, w) :: rest, k, v =>
      if k2 = k then (k2, v) :: rest
      else (k2, w) :: dictUpd rest k v

/-- Build a Python dict from pairs (later duplicates overwrite in place). -/
def dictFromPairs {α : Type} (l : List (String × α)) : List (String × α) :=
  l.foldl (fun d kv => dictUpd d kv.1 kv.2) []

end Py

namespace Models

open Py

/-- `mure.models.Request`: the raw constructor arguments (`_method`,
`_url`, `_headers`, `_params`, `data`, `json`, `timeout`). -/
structure Request where
  rawMethod : String
  rawUrl : String
  rawHeaders : Option (List (String × String)) := Option.none
  rawParams : Option (List (String × String)) := Option.none
  data : PyVal := .pynone
  json : PyVal := .pynone
  timeout : Option Int := some 10

/-- The `method` property: `self._method.strip().upper()`. -/
def Request.method (r : Request) : String := pyUpper (pyStrip r.rawMethod)

/-- The `url_parts` property: `urlparse(self._url)`. -/
def Request.urlParts (r : Request) : ParseResult := pyUrlparse r.rawUrl

/-- The `scheme` property. -/
def Request.scheme (r : Request) : String := r.urlParts.scheme

/-- The `netloc` property: the parsed netloc, lower-cased. -/
def Request.netloc (r : Request) : String := pyLower r.urlParts.netloc

/-- The `path` property. -/
def Request.path (r : Request) : String := r.urlParts.path

/-- The `url` property: `f"{scheme}://{netloc}{path}"` (the query string
is dropped here; it lives in `params`). -/
def Request.url (r : Request) : String :=
  r.scheme ++ "://" ++ r.netloc ++ r.path

/-- The `headers` property: keys stripped and lower-cased. -/
def Request.headers (r : Request) : Option (List (String × String)) :=
  r.rawHeaders.map
    (fun hs => dictFromPairs (hs.map (fun kv => (pyLower (pyStrip kv.1), kv.2))))

/-- The `params` property: `parse_qs` of the URL query merged with the
constructor `params` (appending to existing keys, adding new ones);
`None` when both are absent. -/
def Request.params (r : Request) : Option (List (String × List String)) :=
  let fromQuery := parseQs r.urlParts.query
  match r.rawParams with
  | Option.none => if fromQuery = [] then Option.none else some fromQuery
  | some ps => some (ps.foldl (fun d kv => qsAppend d kv.1 kv.2) fromQuery)

/-- The headers as the Python value passed to `_normalize`. -/
def headersVal : Option (List (String × String)) → PyVal
  | Option.none => .pynone
  | some hs => .dict (hs.map (fun kv => (kv.1, .str kv.2)))

/-- The params as the Python value passed to `_normalize`. -/
def paramsVal : Option (List (String × List String)) → PyVal
  | Option.none => .pynone
  | some ps => .dict (ps.map (fun kv => (kv.1, .list (kv.2.map .str))))

/-- The record serialized by `Request.sha256`. -/
def Request.fingerprintRecord (r : Request) : PyVal :=
  .dict
    [("method", .str r.method),
     ("url", .str r.url),
     ("headers", pyNormalize (headersVal r.headers)),
     ("params", pyNormalize (paramsVal r.params)),
     ("data", pyNormalize r.data),
     ("json", pyNormalize r.json)]

/-- `Request.sha256`: the hex SHA-256 digest of the
`orjson.dumps(..., option=orjson.OPT_SORT_KEYS)` serialization of the
fingerprint record.  (`_normalize` leaves no `bytes`/`bytearray`/opaque
values behind, so the serialization cannot raise; `getD` is therefore
never exercised on the `none` branch.) -/
def Request.sha256 (r : Request) : String :=
  SHA256.sha256Hex
    (utf8Encode ((jsonDumps orjsonSortCfg r.fingerprintRecord).getD ""))

end Models


namespace Dtos

/-- `mure.dtos.HistoricResponse`. -/
structure HistoricResponse where
  status : Int
  reason : String
  ok : Bool
  url : String

/-- `mure.dtos.Response`: the dataclass consumed by `mure.cache`. -/
structure Response where
  status : Int
  reason : String
  ok : Bool
  text : String
  url : String
  history : List HistoricResponse

end Dtos

namespace MureCache

open Py

/-- `mure.dtos.HTTPResource`: a resource dict with `method` and `url` and
the optional request settings of `mure.dtos.Resource` (absent keys are
`None`; the non-string values are opaque Python values). -/
structure HTTPResource where
  method : String
  url : String
  headers : PyVal := .pynone
  params : PyVal := .pynone
  data : PyVal := .pynone
  json : PyVal := .pynone
  cookies : PyVal := .pynone
  skipAutoHeaders : PyVal := .pynone
  auth : PyVal := .pynone
  allowRedirects : PyVal := .pynone
  maxRedirects : PyVal := .pynone
  compress : PyVal := .pynone
  chunked : PyVal := .pynone
  expect100 : PyVal := .pynone
  raiseForStatus : PyVal := .pynone
  readUntilEof : PyVal := .pynone
  proxy : PyVal := .pynone
  proxyAuth : PyVal := .pynone
  timeout : PyVal := .pynone
  verifySsl : PyVal := .pynone
  fingerprint : PyVal := .pynone
  sslContext : PyVal := .pynone
  ssl : PyVal := .pynone
  proxyHeaders : PyVal := .pynone
  traceRequestCtx : PyVal := .pynone
  readBufsize : PyVal := .pynone

/-- `Cache.identify_resource`: `json.dumps` (sorted keys, default
separators, `ensure_ascii=False`) of the dict holding exactly `method`,
`url`, `headers`, `params`, `data` and `json`; `none` models the
`TypeError` `json.dumps` raises on unserializable values. -/
def identifyResource (r : HTTPResource) : Option String :=
  jsonDumps pyJsonSortCfg
    (.dict
      [("method", .str r.method),
       ("url", .str r.url),
       ("headers", r.headers),
       ("params", r.params),
       ("data", r.data),
       ("json", r.json)])

/-- First-match lookup in a Python dict association list. -/
def dictLookup {α : Type} : List (String × α) → String → Option α
  | [], _ => Option.none
  | (k2, v) :: rest, k => if k2 = k then some v else dictLookup rest k

/-- `mure.cache.InMemoryCache`: a Python dict from resource identifier to
response. -/
structure InMemoryCache where
  cache : List (String × Dtos.Response) := []

/-- `InMemoryCache.has`: `identify_resource(resource) in self._cache`
(propagating a serialization `TypeError`). -/
def InMemoryCache.has (c : InMemoryCache) (r : HTTPResource) : Except PyErr Bool :=
  match identifyResource r with
  | some key => .ok (dictLookup c.cache key).isSome
  | Option.none => .error (.typeError "not JSON serializable")

/-- `InMemoryCache.get`: `self._cache.get(identify_resource(resource))`. -/
def InMemoryCache.get (c : InMemoryCache) (r : HTTPResource) :
    Except PyErr (Option Dtos.Response) :=
  match identifyResource r with
  | some key => .ok (dictLookup c.cache key)
  | Option.none => .error (.typeError "not JSON serializable")

/-- `InMemoryCache.save`: `self._cache[identify_resource(resource)] = response`. -/
def InMemoryCache.save (c : InMemoryCache) (r : HTTPResource) (p : Dtos.Response) :
    Except PyErr InMemoryCache :=
  match identifyResource r with
  | some key => .ok ⟨dictUpd c.cache key p⟩
  | Option.none => .error (.typeError "not JSON serializable")

end MureCache


namespace Mure

open Py

/-- `mure.consumption.Consumption`: the two index sets (`consumables`,
`scheduled`); the constructor receives the number of consumables. -/
structure Consumption where
  consumables : Finset Nat
  scheduled : Finset Nat
  deriving DecidableEq

/-- `Consumption(num_consumables)`: `consumables = set(range(n))`,
`scheduled = set()`. -/
def Consumption.init (n : Nat) : Consumption := ⟨Finset.range n, ∅⟩

/-- The `is_done` property: both sets have zero length. -/
def Consumption.isDone (c : Consumption) : Bool :=
  c.consumables.card = 0 && c.scheduled.card = 0

/-- `anext_priority`: take the minimum of `consumables - scheduled` (or
`None` when that set is empty), add it to `scheduled`, return it. -/
def Consumption.anextPriority (c : Consumption) : Option Nat × Consumption :=
  let unscheduled := c.consumables \ c.scheduled
  if h : unscheduled.Nonempty then
    (some (unscheduled.min' h), { c with scheduled := insert (unscheduled.min' h) c.scheduled })
  else (Option.none, c)

/-- `aconsume`: `scheduled.remove(priority)` then
`consumables.remove(priority)`; Python's `set.remove` raises `KeyError`
when the element is absent, leaving any removal already performed in
place. -/
def Consumption.aconsume (c : Consumption) (p : Nat) : Option PyErr × Consumption :=
  if p ∈ c.scheduled then
    if p ∈ c.consumables then
      (Option.none, ⟨c.consumables.erase p, c.scheduled.erase p⟩)
    else (some (.keyError (toString p)), { c with scheduled := c.scheduled.erase p })
  else (some (.keyError (toString p)), c)

/-- How one call of `mure.queue.Queue.get` / `Queue.get_next` ends: a
normal `None` return, a returned response, suspension forever on
`event.wait()` or on the empty `PriorityQueue`, or a raised exception. -/
inductive GetOutcome (α : Type) where
  | finished
  | ok (r : α)
  | blockedEvent
  | blockedQueue
  | error (e : PyErr)
  deriving DecidableEq

/-- `mure.queue.Queue`: the total size, the `PriorityQueue` contents, the
set of indices whose `Event` is set, and the consumption tracker. -/
structure Queue (α : Type) where
  totalSize : Nat
  queue : List (Nat × α)
  events : Finset Nat
  consumption : Consumption
  deriving DecidableEq

/-- `Queue(total_size)`. -/
def Queue.init (α : Type) (n : Nat) : Queue α := ⟨n, [], ∅, Consumption.init n⟩

/-- The entry an `asyncio.PriorityQueue` pops: one of minimal priority
(each priority is put at most once in this program, so ties never arise). -/
def minPriorityEntry {α : Type} : List (Nat × α) → Option (Nat × α)
  | [] => Option.none
  | e :: rest =>
      match minPriorityEntry rest with
      | Option.none => some e
      | some f => if e.1 ≤ f.1 then some e else some f

/-- Remove the first entry with the given priority. -/
def removeFirstWithPriority {α : Type} (p : Nat) : List (Nat × α) → List (Nat × α)
  | [] => []
  | e :: rest => if e.1 = p then rest else e :: removeFirstWithPriority p rest

/-- Pop a minimal-priority entry from the `PriorityQueue` contents. -/
def popMin {α : Type} (q : List (Nat × α)) : Option ((Nat × α) × List (Nat × α)) :=
  match minPriorityEntry q with
  | Option.none => Option.none
  | some e => some (e, removeFirstWithPriority e.1 q)

/-- `Queue.put`: add `(priority, response)` to the priority queue and set
the event of that priority. -/
def Queue.put {α : Type} (s : Queue α) (p : Nat) (r : α) : Queue α :=
  { s with queue := s.queue ++ [(p, r)], events := insert p s.events }

/-- `Queue.get(priority)`: return `None` when consumption `is_done`; wait
on the priority's event (suspending forever if it is never set); pop the
minimal entry of the priority queue (suspending forever when it is
empty); raise `ValueError` when the popped priority differs from the
requested one; then `aconsume` the priority (whose `KeyError`, if any,
propagates) and return the popped response. -/
def Queue.get {α : Type} (s : Queue α) (p : Nat) : GetOutcome α × Queue α :=
  if s.consumption.isDone then (.finished, s)
  else if p ∉ s.events then (.blockedEvent, s)
  else
    match popMin s.queue with
    | Option.none => (.blockedQueue, s)
    | some (e, rest) =>
        if e.1 ≠ p then
          (.error (.valueError "Inconsistency between priority and fetched item"),
           { s with queue := rest })
        else
          match s.consumption.aconsume e.1 with
          | (some err, c2) => (.error err, { s with queue := rest, consumption := c2 })
          | (Option.none, c2) => (.ok e.2, { s with queue := rest, consumption := c2 })

/-- `Queue.get_next`: return `None` when `is_done` or when no priority is
left to schedule; otherwise `get` the scheduled priority. -/
def Queue.getNext {α : Type} (s : Queue α) : GetOutcome α × Queue α :=
  if s.consumption.isDone then (.finished, s)
  else
    match s.consumption.anextPriority with
    | (Option.none, c2) => (.finished, { s with consumption := c2 })
    | (some p, c2) => Queue.get { s with consumption := c2 } p

/-- The indices already popped by the consumer loop of
`ResponseIterator._afetch_responses` after `k` iterations.  `P j` is the
set of indices whose worker has `put` its `(priority, response)` pair into
the `PriorityQueue` by the time of the `j`-th pop (workers complete in an
arbitrary order, so `P` is arbitrary); each pop removes a minimal-priority
entry, i.e. the minimum of `P j` minus what was already popped. -/
def consumedUpTo (P : Nat → Finset Nat) : Nat → Finset Nat
  | 0 => ∅
  | k + 1 =>
      let A := P k \ consumedUpTo P k
      if h : A.Nonempty then insert (A.min' h) (consumedUpTo P k)
      else consumedUpTo P k

/-- The index the `k`-th `await self._queue.get()` pops (the minimal
pending index), or `none` if nothing is pending. -/
def yieldedIndexAt (P : Nat → Finset Nat) (k : Nat) : Option Nat :=
  let A := P k \ consumedUpTo P k
  if h : A.Nonempty then some (A.min' h) else Option.none

/-- Draining the iterator: the consumer loop iterates over the `n`
per-index events in order and yields the response popped at each of its
`n` iterations (worker `i` puts `(i, resp i)`). -/
def drainedResponses {α : Type} (n : Nat) (P : Nat → Finset Nat) (resp : Nat → α) :
    List (Option α) :=
  (List.range n).map (fun k => (yieldedIndexAt P k).map resp)

end Mure


namespace Py

/-- Normalize a codec name as Python's `encodings` package does before the
registry lookup (lower-case, underscores to hyphens). -/
def normalizeCodecName (name : String) : String :=
  ⟨(pyLower name).data.map (fun c => if c = '_' then '-' else c)⟩

/-- Latin-1 decoding: each byte is the code point. -/
def latin1DecodeChars (bs : List Nat) : List Char := bs.map Char.ofNat

/-- ASCII decoding with `errors="replace"`. -/
def asciiDecodeReplaceChars (bs : List Nat) : List Char :=
  bs.map (fun b => if b < 128 then Char.ofNat b else replacementChar)

/-- A fragment of Python's codec registry sufficient for this development:
the UTF-8, Latin-1 and ASCII codec families (with `errors="replace"`
decoding); any other name is unknown (`none` models the `LookupError`). -/
def codecDecodeReplace (name : String) (bs : List Nat) : Option String :=
  let n := normalizeCodecName name
  if n ∈ ["utf-8", "utf8", "u8", "cp65001"] then some ⟨utf8DecodeReplace bs⟩
  else if n ∈ ["latin-1", "latin1", "iso-8859-1", "iso8859-1", "8859", "latin", "l1"] then
    some ⟨latin1DecodeChars bs⟩
  else if n ∈ ["ascii", "us-ascii", "646"] then some ⟨asciiDecodeReplaceChars bs⟩
  else Option.none

/-- `content.decode(encoding, errors="replace")` with `encoding` possibly
`None`: `TypeError` when it is `None`, `LookupError` when the codec name
is unknown, otherwise the replace-decoded string. -/
def bytesDecode (enc : Option String) (bs : List Nat) : Except PyErr String :=
  match enc with
  | Option.none => .error (.typeError "decode() argument 'encoding' must be str, not None")
  | some name =>
      match codecDecodeReplace name bs with
      | some s => .ok s
      | Option.none => .error (.lookupError ("unknown encoding: " ++ name))

end Py

namespace Models

open Py

/-- `mure.models.Response`: the keyword-only constructor fields. -/
structure Response where
  ok : Bool
  status : Int
  reason : Option String
  url : String
  content : List Nat
  encoding : Option String
  headers : List (String × String)

/-- The `Response.text` cached property: try to decode `content` with the
declared `encoding` (`errors="replace"`); on `LookupError` (unknown
encoding) or `TypeError` (encoding is `None`), run the byte-level charset
detector (`charset_normalizer.from_bytes(...).best()`, an external
library modelled as the oracle `detectBest`) and decode with its best
match; when the detector finds nothing, `raise ValueError("Unable to
detect encoding for response content")`. -/
def Response.text (r : Response) (detectBest : List Nat → Option String) :
    Except PyErr String :=
  match bytesDecode r.encoding r.content with
  | .ok s => .ok s
  | .error e =>
      match e with
      | .typeError _ | .lookupError _ =>
          match detectBest r.content with
          | some enc => bytesDecode (some enc) r.content
          | Option.none => .error (.valueError "Unable to detect encoding for response content")
      | e2 => .error e2

end Models

namespace Iter

open Py

/-- The keyword-only parameter names of `mure.models.Response.__init__`
(`ok`, `status`, `reason`, `url`, `content`, `encoding`, `headers`; none
has a default). -/
def responseInitParams : List String :=
  ["ok", "status", "reason", "url", "content", "encoding", "headers"]

/-- Python keyword-argument binding for a keyword-only signature with no
defaults: an unexpected keyword raises `TypeError`, then a missing
required keyword raises `TypeError`. -/
def bindKwargs (params : List String) (kwargs : List String) : Except PyErr Unit :=
  match kwargs.find? (fun k => !(params.contains k)) with
  | some k => .error (.typeError ("__init__() got an unexpected keyword argument '" ++ k ++ "'"))
  | Option.none =>
      match params.find? (fun p => !(kwargs.contains p)) with
      | some p =>
          .error (.typeError ("__init__() missing required keyword-only argument: '" ++ p ++ "'"))
      | Option.none => .ok ()

/-- The keywords passed at the end of `ResponseIterator._asend_request`'s
`except` branch: `Response(status=0, reason=repr(error), ok=False,
text="", url="", content=b"")`. -/
def syntheticResponseKwargs : List String :=
  ["status", "reason", "ok", "text", "url", "content"]

/-- The `except Exception` branch of `_asend_request` (no cache storage
configured): it builds the synthetic failure response by calling
`mure.models.Response` with the keywords above; the keyword binding
decides whether a response is returned or an exception escapes the
handler.  (The `.ok` branch materializes the record the call intends to
build; the theorems show the binding never reaches it.) -/
def asendRequestExceptBranch (errRepr : String) : Except PyErr Models.Response :=
  match bindKwargs responseInitParams syntheticResponseKwargs with
  | .error e => .error e
  | .ok _ => .ok ⟨false, 0, some errRepr, "", [], Option.none, []⟩

end Iter

namespace Utils

open Py

/-- A resource dict as `mure.utils._process` receives it: `method` and
`url` keys possibly absent, remaining entries forwarded to the transport. -/
structure UResource where
  method : Option String := Option.none
  url : Option String := Option.none
  rest : List (String × PyVal) := []

/-- `_process`: `resource.pop("method")` then `resource.pop("url")`,
re-raising the `KeyError` with a message, and only then performing the
HTTP interaction (abstracted as the oracle `send`; its errors are caught
and converted downstream, which is not this claim's concern). -/
def uprocess {α : Type} (send : String → String → List (String × PyVal) → α)
    (r : UResource) : Except PyErr α :=
  match r.method with
  | Option.none => .error (.keyError "'method' is not defined for the given resource")
  | some m =>
      match r.url with
      | Option.none => .error (.keyError "'url' is not defined for the given resource")
      | some u => .ok (send m u r.rest)

/-- The top-level argument of `mure.request` / `ResponseIterator`: a list
of resources, or a value without `len()` (e.g. a generator). -/
inductive ResourcesArg where
  | list (rs : List UResource)
  | unsized (typeName : String)

/-- The state `ResponseIterator.__init__` builds: the stored resources,
the batch size, and `pending = len(resources)`. -/
structure IterState where
  resources : List UResource
  batchSize : Nat
  pending : Nat

/-- `ResponseIterator.__init__`: stores the resources and batch size and
evaluates `len(resources)`; `len` raises `TypeError` on an unsized
argument; the contents of the resources are not inspected. -/
def responseIteratorInit (resources : ResourcesArg) (batchSize : Nat) :
    Except PyErr IterState :=
  match resources with
  | .list rs => .ok ⟨rs, batchSize, rs.length⟩
  | .unsized t => .error (.typeError ("object of type '" ++ t ++ "' has no len()"))

/-- `mure.request(resources, batch_size=...)`: constructs the iterator. -/
def request (resources : ResourcesArg) (batchSize : Nat) : Except PyErr IterState :=
  responseIteratorInit resources batchSize

/-- The first `next()`: `_process_batches` runs the first batch through
`_process` under `asyncio.gather`, which propagates the first raised
exception. -/
def firstBatchOutcome {α : Type} (send : String → String → List (String × PyVal) → α)
    (st : IterState) : Except PyErr (List α) :=
  (st.resources.take st.batchSize).mapM (uprocess send)

end Utils

/-! ## Theorems -/

namespace SHA256

set_option maxRecDepth 100000 in
/-- Sanity check against the FIPS 180-2 test vector for "abc". -/
theorem sha256_test_vector_abc :
    sha256Hex (Py.utf8Encode "abc") =
      "ba7816bf8f01cfea414140de5dae2223b00361a396177a9cb410ff61f20015ad" := by
  decide

end SHA256

namespace Py

/-- `strLe` decides the negation of the lexicographic strict order. -/
theorem strLe_iff_not_lex : ∀ (a b : List Char), strLe a b = true ↔ ¬ List.Lex (· < ·) b a := by
  intro a
  induction a with
  | nil =>
      intro b
      constructor
      · intro _ h
        cases h
      · intro _
        rfl
  | cons c cs ih =>
      intro b
      cases b with
      | nil =>
          constructor
          · intro h
            exact absurd h (by simp [strLe])
          · intro h
            exact absurd List.Lex.nil h
      | cons d ds =>
          rcases lt_trichotomy c d with hcd | hcd | hcd
          · simp only [strLe, hcd, if_true]
            constructor
            · intro _ h
              cases h with
              | rel h2 => exact absurd (h2.trans hcd) (lt_irrefl _)
              | cons h2 => exact absurd hcd (lt_irrefl _)
            · intro _
              trivial
          · subst hcd
            simp only [strLe, lt_irrefl, if_false]
            rw [ih ds]
            constructor
            · intro h h2
              cases h2 with
              | rel h3 => exact absurd h3 (lt_irrefl _)
              | cons h3 => exact h h3
            · intro h h2
              exact h (List.Lex.cons h2)
          · have hnc : ¬ c < d := fun h => absurd (h.trans hcd) (lt_irrefl _)
            simp only [strLe, hnc, hcd, if_true, if_false]
            constructor
            · intro h
              exact absurd h (Bool.false_ne_true)
            · intro h
              exact absurd (List.Lex.rel hcd) h

/-- `pyStrLe` agrees with the `String` linear order. -/
theorem pyStrLe_iff (a b : String) : pyStrLe a b = true ↔ a ≤ b := by
  rw [String.le_iff_toList_le]
  show strLe a.data b.data = true ↔ a.toList ≤ b.toList
  rw [strLe_iff_not_lex]
  have h : a.toList ≤ b.toList ↔ ¬ b.toList < a.toList :=
    (not_lt (a := b.toList) (b := a.toList)).symm
  rw [h]
  rfl

/-- `pyNormalizeList` is exactly `List.map pyNormalize` (order preserved). -/
theorem pyNormalizeList_eq_map (xs : List PyVal) :
    pyNormalizeList xs = xs.map pyNormalize := by
  induction xs with
  | nil => rfl
  | cons x xs ih => simp [pyNormalizeList, ih]

/-- `pyNormalizeEntries` is exactly mapping `_normalize` over the values. -/
theorem pyNormalizeEntries_eq_map (es : List (String × PyVal)) :
    pyNormalizeEntries es = es.map (fun kv => (kv.1, pyNormalize kv.2)) := by
  induction es with
  | nil => rfl
  | cons e es ih => cases e; simp [pyNormalizeEntries, ih]

/-- Normalizing entry values commutes with the stable key-insertion. -/
theorem pyNormalizeEntries_insertByKey (e : String × PyVal) (l : List (String × PyVal)) :
    pyNormalizeEntries (insertByKey e l)
      = insertByKey (e.1, pyNormalize e.2) (pyNormalizeEntries l) := by
  induction l with
  | nil => cases e; rfl
  | cons f fs ih =>
      cases e with
      | mk k v =>
        cases f with
        | mk k2 v2 =>
          by_cases h : pyStrLe k k2 = true
          · simp [insertByKey, h, pyNormalizeEntries]
          · simp [insertByKey, h, pyNormalizeEntries, ih]

/-- Normalizing entry values commutes with the stable key sort, so the
definition above (normalize, then sort) computes exactly the source's
`{str(k): normalize(v) for k, v in sorted(items, key=...)}` (sort, then
normalize). -/
theorem pyNormalizeEntries_sortByKey (es : List (String × PyVal)) :
    pyNormalizeEntries (sortByKey es) = sortByKey (pyNormalizeEntries es) := by
  induction es with
  | nil => rfl
  | cons e es ih =>
      cases e with
      | mk k v =>
        simp [sortByKey, pyNormalizeEntries, pyNormalizeEntries_insertByKey, ih]

/-- `insertByKey` produces a permutation of consing the new entry. -/
theorem insertByKey_perm {α : Type} (e : String × α) (l : List (String × α)) :
    List.Perm (insertByKey e l) (e :: l) := by
  induction l with
  | nil => simp [insertByKey]
  | cons f fs ih =>
      by_cases h : pyStrLe e.1 f.1 = true
      · simp [insertByKey, h]
      · simp only [insertByKey, h, if_false]
        exact (List.Perm.cons f ih).trans (List.Perm.swap e f fs)

/-- `sortByKey` permutes the entries. -/
theorem sortByKey_perm {α : Type} (l : List (String × α)) :
    List.Perm (sortByKey l) l := by
  induction l with
  | nil => simp [sortByKey]
  | cons e es ih =>
      exact (insertByKey_perm e (sortByKey es)).trans (List.Perm.cons e ih)

/-- Keys of the sorted entry list are in (weakly) ascending order. -/
theorem sortByKey_sorted {α : Type} (l : List (String × α)) :
    List.Pairwise (fun a b : String × α => a.1 ≤ b.1) (sortByKey l) := by
  induction l with
  | nil => simp [sortByKey]
  | cons e es ih =>
      have step :
          ∀ (m : List (String × α)),
            List.Pairwise (fun a b : String × α => a.1 ≤ b.1) m →
              List.Pairwise (fun a b : String × α => a.1 ≤ b.1) (insertByKey e m) := by
        intro m hm
        induction m with
        | nil => simp [insertByKey]
        | cons f fs ihm =>
            by_cases h : pyStrLe e.1 f.1 = true
            · have hle : e.1 ≤ f.1 := (pyStrLe_iff e.1 f.1).mp h
              simp only [insertByKey, h, if_true]
              constructor
              · intro b hb
                rcases List.mem_cons.mp hb with hb | hb
                · exact hb ▸ hle
                · exact le_trans hle (List.rel_of_pairwise_cons hm hb)
              · exact hm
            · simp only [insertByKey, h, if_false]
              have hfe : f.1 ≤ e.1 :=
                le_of_not_le (fun hc => h ((pyStrLe_iff e.1 f.1).mpr hc))
              constructor
              · intro b hb
                have := List.Perm.mem_iff (insertByKey_perm e fs) |>.mp hb
                rcases List.mem_cons.mp this with hb | hb
                · exact hb ▸ hfe
                · exact List.rel_of_pairwise_cons hm hb
              · exact ihm (List.Pairwise.sublist (List.sublist_cons_self f fs) hm)
      exact step (sortByKey es) ih


end Py

namespace Py

/-- C5 counterexample: a `bytearray` is a non-string, non-bytes Python
sequence (its elements are the ints 97 and 98), but `_normalize` does not
map it to the list of its normalized elements: it falls through to the
final clause, `orjson.dumps` raises `TypeError` on it, and the result is
the string `repr(bytearray(b"ab"))`. -/
theorem pyNormalize_bytearray_counterexample :
    pyNormalize (.bytearray [97, 98]) = .str "bytearray(b'ab')"
      ∧ pyNormalize (.bytearray [97, 98]) ≠ .list [.int 97, .int 98] := by
  constructor
  · rfl
  · intro h
    rw [show pyNormalize (.bytearray [97, 98]) = .str "bytearray(b'ab')" from rfl] at h
    exact PyVal.noConfusion h

/-- C5 (amended): the clauses of `Request._normalize`.  `None` maps to
itself; bytes to the `{"__type": "bytes", "sha256": <hex digest>}` record;
strings, ints, floats and bools to themselves; mappings to recursively
normalized mappings with entries sorted by key (the sorted entries are a
key-ascending permutation of the originals); sequences other than strings,
bytes and bytearrays to the list of normalized elements with order
preserved; any other value to its `orjson` JSON serialization when that
succeeds, else to its `repr` — in particular a `bytearray`, which `orjson`
cannot serialize, maps to its `repr` string. -/
theorem pyNormalize_clauses :
    (pyNormalize .pynone = .pynone)
    ∧ (∀ bs, pyNormalize (.bytes bs)
        = .dict [("__type", .str "bytes"), ("sha256", .str (SHA256.sha256Hex bs))])
    ∧ (∀ s, pyNormalize (.str s) = .str s)
    ∧ (∀ n, pyNormalize (.int n) = .int n)
    ∧ (∀ lit, pyNormalize (.float lit) = .float lit)
    ∧ (∀ b, pyNormalize (.bool b) = .bool b)
    ∧ (∀ es, pyNormalize (.dict es) = .dict (pyNormalizeEntries (sortByKey es))
        ∧ List.Pairwise (fun a b : String × PyVal => a.1 ≤ b.1) (sortByKey es)
        ∧ (sortByKey es).Perm es)
    ∧ (∀ xs, pyNormalize (.list xs) = .list (xs.map pyNormalize))
    ∧ (∀ bs, pyNormalize (.bytearray bs) = .str (bytearrayRepr bs))
    ∧ (∀ js rep, pyNormalize (.obj (some js) rep) = .str js)
    ∧ (∀ rep, pyNormalize (.obj Option.none rep) = .str rep) := by
  refine ⟨rfl, fun bs => rfl, fun s => rfl, fun n => rfl, fun lit => rfl, fun b => rfl,
    fun es => ⟨?_, sortByKey_sorted es, sortByKey_perm es⟩, fun xs => ?_,
    fun bs => rfl, fun js rep => rfl, fun rep => rfl⟩
  · rw [pyNormalize, pyNormalizeEntries_sortByKey]
  · rw [pyNormalize, pyNormalizeList_eq_map]

/-- The keys after `qsAppend`: unchanged when the key is present,
appended at the end otherwise. -/
theorem qsAppend_fst (l : List (String × List String)) (k v : String) :
    (qsAppend l k v).map Prod.fst
      = if k ∈ l.map Prod.fst then l.map Prod.fst else l.map Prod.fst ++ [k] := by
  induction l with
  | nil => simp [qsAppend]
  | cons e t ih =>
      cases e with
      | mk k2 vs =>
        by_cases hk : k2 = k
        · simp [qsAppend, hk]
        · have hk2 : ¬ k = k2 := fun h => hk h.symm
          by_cases hmem : k ∈ t.map Prod.fst
          · simp [qsAppend, hk, ih, hmem, hk2]
          · simp [qsAppend, hk, ih, hmem, hk2]

/-- `qsAppend` preserves distinctness of the keys. -/
theorem qsAppend_fst_nodup {l : List (String × List String)} (k v : String)
    (h : (l.map Prod.fst).Nodup) : ((qsAppend l k v).map Prod.fst).Nodup := by
  rw [qsAppend_fst]
  by_cases hmem : k ∈ l.map Prod.fst
  · simpa [hmem] using h
  · simp [hmem, List.nodup_append, h]

/-- On key-distinct dicts that are permutations of one another,
`qsAppend` produces permutations again. -/
theorem qsAppend_perm (k v : String) {l1 l2 : List (String × List String)}
    (h : l1.Perm l2) :
    (l1.map Prod.fst).Nodup → (qsAppend l1 k v).Perm (qsAppend l2 k v) := by
  induction h with
  | nil => exact fun _ => List.Perm.refl _
  | cons x h ih =>
      intro hnd
      cases x with
      | mk k2 vs =>
        by_cases hk : k2 = k
        · simp only [qsAppend, hk, if_true]
          exact h.cons _
        · simp only [qsAppend, hk, if_false]
          exact (ih (by simp at hnd; exact hnd.2)).cons _
  | swap x y l =>
      intro hnd
      have hxy : y.1 ≠ x.1 := by
        simp only [List.map_cons, List.nodup_cons, List.mem_cons, List.mem_map] at hnd
        exact fun h => hnd.1 (Or.inl h)
      cases x with
      | mk kx vsx =>
        cases y with
        | mk ky vsy =>
          by_cases hky : ky = k
          · have hkx : ¬ kx = k := by
              intro hkx
              exact hxy (by simp [hky, hkx])
            simp only [qsAppend, hky, hkx, if_true, if_false]
            exact List.Perm.swap _ _ _
          · by_cases hkx : kx = k
            · simp only [qsAppend, hky, hkx, if_true, if_false]
              exact List.Perm.swap _ _ _
            · simp only [qsAppend, hky, hkx, if_false]
              exact List.Perm.swap _ _ _
  | trans h1 h2 ih1 ih2 =>
      intro hnd
      exact (ih1 hnd).trans (ih2 (((h1.map Prod.fst).nodup_iff).mp hnd))

/-- Key-sorting two key-distinct permutations of each other gives the
same list. -/
theorem sortByKey_eq_of_perm {α : Type} {l1 l2 : List (String × α)}
    (h : l1.Perm l2) (hnd : (l1.map Prod.fst).Nodup) :
    sortByKey l1 = sortByKey l2 := by
  have hp : (sortByKey l1).Perm (sortByKey l2) :=
    (sortByKey_perm l1).trans (h.trans (sortByKey_perm l2).symm)
  have hnd1 : ((sortByKey l1).map Prod.fst).Nodup :=
    (((sortByKey_perm l1).map Prod.fst).nodup_iff).mpr hnd
  have hnd2 : ((sortByKey l2).map Prod.fst).Nodup :=
    ((hp.map Prod.fst).nodup_iff).mp hnd1
  have strict :
      ∀ (m : List (String × α)),
        List.Pairwise (fun a b : String × α => a.1 ≤ b.1) m →
          (m.map Prod.fst).Nodup →
          List.Pairwise (fun a b : String × α => a.1 < b.1) m := by
    intro m hle hnd
    have hne : List.Pairwise (fun a b : String × α => a.1 ≠ b.1) m :=
      List.pairwise_map.mp hnd
    exact (hle.and hne).imp (fun h => lt_of_le_of_ne h.1 h.2)
  have hlt1 := strict _ (sortByKey_sorted l1) hnd1
  have hlt2 := strict _ (sortByKey_sorted l2) hnd2
  haveI : IsAntisymm (String × α) (fun a b => a.1 < b.1) :=
    ⟨fun a b h1 h2 => absurd (h1.trans h2) (lt_irrefl _)⟩
  exact List.eq_of_perm_of_sorted hp hlt1 hlt2

/-- Folding `qsAppend` over the same extra params preserves the
permutation relation and key-distinctness. -/
theorem foldl_qsAppend_perm (ps : List (String × String)) :
    ∀ {l1 l2 : List (String × List String)}, l1.Perm l2 → (l1.map Prod.fst).Nodup →
      (ps.foldl (fun d kv => qsAppend d kv.1 kv.2) l1).Perm
          (ps.foldl (fun d kv => qsAppend d kv.1 kv.2) l2)
        ∧ ((ps.foldl (fun d kv => qsAppend d kv.1 kv.2) l1).map Prod.fst).Nodup := by
  induction ps with
  | nil => exact fun h hn => ⟨h, hn⟩
  | cons p ps ih =>
      intro l1 l2 h hn
      exact ih (qsAppend_perm p.1 p.2 h hn) (qsAppend_fst_nodup p.1 p.2 hn)

end Py

namespace Models

open Py

/-- Normalized `params` values agree on key-distinct permutations. -/
theorem pyNormalize_paramsVal_perm {lq1 lq2 : List (String × List String)}
    (hperm : lq1.Perm lq2) (hnodup : (lq1.map Prod.fst).Nodup) :
    pyNormalize (paramsVal (some lq1)) = pyNormalize (paramsVal (some lq2)) := by
  show PyVal.dict (sortByKey (pyNormalizeEntries
        (lq1.map (fun kv => (kv.1, PyVal.list (kv.2.map PyVal.str))))))
      = PyVal.dict (sortByKey (pyNormalizeEntries
        (lq2.map (fun kv => (kv.1, PyVal.list (kv.2.map PyVal.str))))))
  rw [pyNormalizeEntries_eq_map, pyNormalizeEntries_eq_map]
  congr 1
  apply sortByKey_eq_of_perm
  · exact (hperm.map _).map _
  · simpa [List.map_map, Function.comp] using hnodup

/-- The raw ingredients of the fingerprint other than the query determine
it together with the query's dict-of-lists up to key order: two requests
that agree on raw method, headers, params, data, json and on the parsed
scheme, netloc and path, and whose parsed query dicts are key-distinct
permutations of one another, have equal `params` normalizations. -/
theorem params_normalized_eq_of_query_perm (r1 r2 : Request)
    (hp : r1.rawParams = r2.rawParams)
    (hq : (parseQs r1.urlParts.query).Perm (parseQs r2.urlParts.query))
    (hnd : ((parseQs r1.urlParts.query).map Prod.fst).Nodup) :
    pyNormalize (paramsVal r1.params) = pyNormalize (paramsVal r2.params) := by
  rw [Request.params, Request.params, ← hp]
  cases hcase : r1.rawParams with
  | none =>
      by_cases hempty : parseQs r1.urlParts.query = []
      · have hempty2 : parseQs r2.urlParts.query = [] := by
          have := hempty ▸ hq
          exact this.symm.eq_nil
        simp only [hempty, hempty2, if_true]
      · have hempty2 : ¬ parseQs r2.urlParts.query = [] := by
          intro h
          exact hempty ((h ▸ hq).eq_nil)
        simp only [hempty, hempty2, if_false]
        exact pyNormalize_paramsVal_perm hq hnd
  | some ps =>
      have hfold := foldl_qsAppend_perm ps hq hnd
      exact pyNormalize_paramsVal_perm hfold.1 hfold.2

/-- C3 (amended): two requests that are identical except for the order of
`key=value` pairs belonging to *distinct* keys in the URL query string
(so that the parsed query dicts are key-distinct permutations of one
another) have the same `Request.sha256` fingerprint.  (When a key repeats,
the per-key value order is part of the fingerprint; see the
counterexample.) -/
theorem sha256_ignores_distinct_key_query_order (r1 r2 : Request)
    (hm : r1.rawMethod = r2.rawMethod)
    (hh : r1.rawHeaders = r2.rawHeaders)
    (hp : r1.rawParams = r2.rawParams)
    (hd : r1.data = r2.data)
    (hj : r1.json = r2.json)
    (hscheme : r1.urlParts.scheme = r2.urlParts.scheme)
    (hnet : r1.urlParts.netloc = r2.urlParts.netloc)
    (hpath : r1.urlParts.path = r2.urlParts.path)
    (hq : (parseQs r1.urlParts.query).Perm (parseQs r2.urlParts.query))
    (hnd : ((parseQs r1.urlParts.query).map Prod.fst).Nodup) :
    r1.sha256 = r2.sha256 := by
  have hrec : r1.fingerprintRecord = r2.fingerprintRecord := by
    rw [Request.fingerprintRecord, Request.fingerprintRecord]
    rw [Request.method, Request.method, hm]
    rw [Request.url, Request.url, Request.scheme, Request.scheme, hscheme,
      Request.netloc, Request.netloc, hnet, Request.path, Request.path, hpath]
    rw [Request.headers, Request.headers, hh]
    rw [hd, hj]
    rw [params_normalized_eq_of_query_perm r1 r2 hp hq hnd]
  rw [Request.sha256, Request.sha256, hrec]

set_option maxRecDepth 1000000 in
/-- C3 counterexample: `GET https://x/?a=1&a=2` and `GET https://x/?a=2&a=1`
are identical except for the order of their `key=value` pairs, yet their
fingerprints differ, because within the repeated key `a` the values keep
their insertion order. -/
theorem sha256_repeated_key_query_order_counterexample :
    Request.sha256 { rawMethod := "GET", rawUrl := "https://x/?a=1&a=2" }
      ≠ Request.sha256 { rawMethod := "GET", rawUrl := "https://x/?a=2&a=1" } := by
  decide

/-- Witness for `sha256_ignores_distinct_key_query_order` at the spec's
example pair `GET https://x/?a=1&b=2` / `GET https://x/?b=2&a=1`. -/
theorem sha256_query_order_witness :
    Request.sha256 { rawMethod := "GET", rawUrl := "https://x/?a=1&b=2" }
      = Request.sha256 { rawMethod := "GET", rawUrl := "https://x/?b=2&a=1" } :=
  sha256_ignores_distinct_key_query_order _ _ rfl rfl rfl rfl rfl rfl rfl rfl
    (by decide) (by decide)

end Models

namespace MureCache

open Py

/-- Updating a key in a Python dict makes lookup of that key return the
new value. -/
theorem dictLookup_dictUpd {α : Type} (d : List (String × α)) (k : String) (v : α) :
    dictLookup (dictUpd d k v) k = some v := by
  induction d with
  | nil => simp [dictUpd, dictLookup]
  | cons e rest ih =>
      cases e with
      | mk k2 w =>
        by_cases h : k2 = k
        · simp [dictUpd, dictLookup, h]
        · simp [dictUpd, dictLookup, h, ih]

/-- C4: on a fresh `InMemoryCache`, `has` is false and `get` is absent for
every resource; after `save(resource, response)` (from any cache state),
`has` is true and `get` returns exactly the saved response. -/
theorem inMemoryCache_fresh_and_roundtrip (r : HTTPResource) (p : Dtos.Response)
    (key : String) (hk : identifyResource r = some key) :
    (InMemoryCache.has ⟨[]⟩ r = .ok false)
    ∧ (InMemoryCache.get ⟨[]⟩ r = .ok Option.none)
    ∧ ∀ (c c2 : InMemoryCache), c.save r p = .ok c2 →
        c2.has r = .ok true ∧ c2.get r = .ok (some p) := by
  refine ⟨by simp [InMemoryCache.has, hk, dictLookup],
    by simp [InMemoryCache.get, hk, dictLookup], ?_⟩
  intro c c2 hsave
  rw [InMemoryCache.save, hk] at hsave
  simp only [Except.ok.injEq] at hsave
  subst hsave
  constructor
  · simp [InMemoryCache.has, hk, dictLookup_dictUpd]
  · simp [InMemoryCache.get, hk, dictLookup_dictUpd]

/-- Witness for `inMemoryCache_fresh_and_roundtrip` at a concrete
resource and response. -/
theorem inMemoryCache_roundtrip_witness :
    (InMemoryCache.has ⟨[]⟩ { method := "GET", url := "https://httpbin.org/get" } = .ok false)
    ∧ (InMemoryCache.get ⟨[]⟩ { method := "GET", url := "https://httpbin.org/get" }
        = .ok Option.none)
    ∧ (InMemoryCache.has
          ⟨[("\x7b\"data\": null, \"headers\": null, \"json\": null, \"method\": \"GET\", \"params\": null, \"url\": \"https://httpbin.org/get\"\x7d",
              ⟨200, "OK", true, "", "https://httpbin.org/get", []⟩)]⟩
          { method := "GET", url := "https://httpbin.org/get" } = .ok true
        ∧ InMemoryCache.get
          ⟨[("\x7b\"data\": null, \"headers\": null, \"json\": null, \"method\": \"GET\", \"params\": null, \"url\": \"https://httpbin.org/get\"\x7d",
              ⟨200, "OK", true, "", "https://httpbin.org/get", []⟩)]⟩
          { method := "GET", url := "https://httpbin.org/get" }
            = .ok (some ⟨200, "OK", true, "", "https://httpbin.org/get", []⟩)) := by
  have h := inMemoryCache_fresh_and_roundtrip
    { method := "GET", url := "https://httpbin.org/get" }
    ⟨200, "OK", true, "", "https://httpbin.org/get", []⟩
    "\x7b\"data\": null, \"headers\": null, \"json\": null, \"method\": \"GET\", \"params\": null, \"url\": \"https://httpbin.org/get\"\x7d"
    rfl
  exact ⟨h.1, h.2.1, h.2.2 ⟨[]⟩ _ rfl⟩

/-- C9: the cache identifier reads only `method`, `url`, `headers`,
`params`, `data` and `json`; two resources agreeing on those six share the
identifier and hence a single cache entry: saving under one makes `get`
under the other return the saved response. -/
theorem identifyResource_six_fields (r1 r2 : HTTPResource)
    (hm : r1.method = r2.method) (hu : r1.url = r2.url)
    (hh : r1.headers = r2.headers) (hp : r1.params = r2.params)
    (hd : r1.data = r2.data) (hj : r1.json = r2.json) :
    identifyResource r1 = identifyResource r2
    ∧ ∀ (c c2 : InMemoryCache) (p : Dtos.Response),
        c.save r1 p = .ok c2 → c2.get r2 = .ok (some p) := by
  have hid : identifyResource r1 = identifyResource r2 := by
    rw [identifyResource, identifyResource, hm, hu, hh, hp, hd, hj]
  refine ⟨hid, ?_⟩
  intro c c2 p hsave
  rw [InMemoryCache.save] at hsave
  cases hcase : identifyResource r1 with
  | none =>
      rw [hcase] at hsave
      exact Except.noConfusion hsave
  | some key =>
      rw [hcase] at hsave
      simp only [Except.ok.injEq] at hsave
      subst hsave
      rw [InMemoryCache.get, ← hid, hcase]
      simp [dictLookup_dictUpd]

/-- Witness for `identifyResource_six_fields`: two resources equal on the
six identifying fields but with different cookies and timeout settings. -/
theorem identifyResource_six_fields_witness :
    identifyResource
        { method := "GET", url := "https://httpbin.org/get",
          cookies := Py.PyVal.dict [("session", Py.PyVal.str "xyz")],
          timeout := Py.PyVal.int 5 }
      = identifyResource { method := "GET", url := "https://httpbin.org/get" }
    ∧ InMemoryCache.get
        ⟨[("\x7b\"data\": null, \"headers\": null, \"json\": null, \"method\": \"GET\", \"params\": null, \"url\": \"https://httpbin.org/get\"\x7d",
            ⟨200, "OK", true, "", "https://httpbin.org/get", []⟩)]⟩
        { method := "GET", url := "https://httpbin.org/get" }
      = .ok (some ⟨200, "OK", true, "", "https://httpbin.org/get", []⟩) := by
  have h := identifyResource_six_fields
    { method := "GET", url := "https://httpbin.org/get",
      cookies := Py.PyVal.dict [("session", Py.PyVal.str "xyz")],
      timeout := Py.PyVal.int 5 }
    { method := "GET", url := "https://httpbin.org/get" }
    rfl rfl rfl rfl rfl rfl
  exact ⟨h.1, h.2 ⟨[]⟩ _ ⟨200, "OK", true, "", "https://httpbin.org/get", []⟩ rfl⟩

end MureCache

namespace Mure

/-- C10: the `Consumption` tracker.  `scheduled ⊆ consumables` holds
initially and is preserved by `anext_priority` and `aconsume`;
`anext_priority` returns `None` exactly when no consumable index is
unscheduled and otherwise the minimum unscheduled consumable; an
`anext_priority` whose result is consumed before the next call makes the
next returned priority strictly larger; and under the invariant `is_done`
holds exactly when no consumable index remains. -/
theorem consumption_tracker_properties (n : Nat) (c : Consumption) (p : Nat)
    (hinv : c.scheduled ⊆ c.consumables) :
    ((Consumption.init n).scheduled ⊆ (Consumption.init n).consumables)
    ∧ ((c.anextPriority.2).scheduled ⊆ (c.anextPriority.2).consumables)
    ∧ (((c.aconsume p).2).scheduled ⊆ ((c.aconsume p).2).consumables)
    ∧ (c.anextPriority.1 = Option.none ↔ c.consumables \ c.scheduled = ∅)
    ∧ (∀ q, c.anextPriority.1 = some q →
        q ∈ c.consumables \ c.scheduled ∧ ∀ a ∈ c.consumables \ c.scheduled, q ≤ a)
    ∧ (∀ p1 c1 c2 q c3, c.anextPriority = (some p1, c1) →
        c1.aconsume p1 = (Option.none, c2) → c2.anextPriority = (some q, c3) → p1 < q)
    ∧ (c.isDone = true ↔ c.consumables = ∅) := by
  refine ⟨by simp [Consumption.init], ?_, ?_, ?_, ?_, ?_, ?_⟩
  · by_cases h : (c.consumables \ c.scheduled).Nonempty
    · simp only [Consumption.anextPriority, dif_pos h]
      refine Finset.insert_subset_iff.mpr ⟨?_, hinv⟩
      exact (Finset.mem_sdiff.mp ((c.consumables \ c.scheduled).min'_mem h)).1
    · simp only [Consumption.anextPriority, dif_neg h]
      exact hinv
  · by_cases h1 : p ∈ c.scheduled
    · by_cases h2 : p ∈ c.consumables
      · simp only [Consumption.aconsume, h1, h2, if_true]
        exact Finset.erase_subset_erase p hinv
      · simp only [Consumption.aconsume, h1, h2, if_true, if_false]
        exact (Finset.erase_subset p c.scheduled).trans hinv
    · simp only [Consumption.aconsume, h1, if_false]
      exact hinv
  · rw [Consumption.anextPriority]
    by_cases h : (c.consumables \ c.scheduled).Nonempty
    · simp only [dif_pos h]
      exact iff_of_false (by simp) (Finset.nonempty_iff_ne_empty.mp h)
    · simp only [dif_neg h]
      simp [Finset.not_nonempty_iff_eq_empty.mp h]
  · intro q hq
    rw [Consumption.anextPriority] at hq
    by_cases h : (c.consumables \ c.scheduled).Nonempty
    · simp only [dif_pos h, Option.some.injEq] at hq
      subst hq
      exact ⟨(c.consumables \ c.scheduled).min'_mem h,
        fun a ha => (c.consumables \ c.scheduled).min'_le a ha⟩
    · simp only [dif_neg h] at hq
      exact Option.noConfusion hq
  · intro p1 c1 c2 q c3 h1 h2 h3
    rw [Consumption.anextPriority] at h1
    by_cases hne : (c.consumables \ c.scheduled).Nonempty
    · simp only [dif_pos hne, Prod.mk.injEq, Option.some.injEq] at h1
      obtain ⟨hp1, hc1⟩ := h1
      subst hp1
      subst hc1
      have hmmem := (c.consumables \ c.scheduled).min'_mem hne
      have hmA : (c.consumables \ c.scheduled).min' hne ∈ c.consumables :=
        (Finset.mem_sdiff.mp hmmem).1
      have hmS : (c.consumables \ c.scheduled).min' hne ∉ c.scheduled :=
        (Finset.mem_sdiff.mp hmmem).2
      have hstep :
          Consumption.aconsume
              { c with scheduled := insert ((c.consumables \ c.scheduled).min' hne) c.scheduled }
              ((c.consumables \ c.scheduled).min' hne)
            = (Option.none,
               ⟨c.consumables.erase ((c.consumables \ c.scheduled).min' hne), c.scheduled⟩) := by
        rw [Consumption.aconsume]
        simp [hmA, Finset.erase_insert hmS]
      rw [hstep] at h2
      simp only [Prod.mk.injEq, true_and] at h2
      subst h2
      rw [Consumption.anextPriority] at h3
      by_cases hne2 :
          ((c.consumables.erase ((c.consumables \ c.scheduled).min' hne)) \ c.scheduled).Nonempty
      · simp only [dif_pos hne2, Prod.mk.injEq, Option.some.injEq] at h3
        obtain ⟨hq, _⟩ := h3
        subst hq
        have hqmem :=
          ((c.consumables.erase ((c.consumables \ c.scheduled).min' hne)) \
            c.scheduled).min'_mem hne2
        have hq1 := (Finset.mem_sdiff.mp hqmem).1
        have hqS := (Finset.mem_sdiff.mp hqmem).2
        have hqne := (Finset.mem_erase.mp hq1).1
        have hqA := (Finset.mem_erase.mp hq1).2
        have hle := (c.consumables \ c.scheduled).min'_le _ (Finset.mem_sdiff.mpr ⟨hqA, hqS⟩)
        exact lt_of_le_of_ne hle (Ne.symm hqne)
      · simp only [dif_neg hne2, Prod.mk.injEq] at h3
        exact Option.noConfusion h3.1
    · simp only [dif_neg hne, Prod.mk.injEq] at h1
      exact Option.noConfusion h1.1
  · rw [Consumption.isDone]
    simp only [Bool.and_eq_true, decide_eq_true_eq, Finset.card_eq_zero]
    constructor
    · intro h
      exact h.1
    · intro h
      exact ⟨h, Finset.subset_empty.mp (h ▸ hinv)⟩

/-- Witness for `consumption_tracker_properties` on a fresh tracker of
three consumables: the first scheduled priority is 0, consuming it makes
the next one 1, and `is_done` mirrors emptiness of `consumables`. -/
theorem consumption_tracker_properties_witness :
    ((Consumption.init 3).scheduled ⊆ (Consumption.init 3).consumables)
    ∧ ((0 : Nat) ∈ (⟨Finset.range 3, ∅⟩ : Consumption).consumables
        \ (⟨Finset.range 3, ∅⟩ : Consumption).scheduled)
    ∧ ((0 : Nat) < 1)
    ∧ ((⟨Finset.range 3, ∅⟩ : Consumption).isDone = true ↔ Finset.range 3 = ∅) := by
  have h := consumption_tracker_properties 3 ⟨Finset.range 3, ∅⟩ 0 (by decide)
  refine ⟨h.1, ?_, ?_, h.2.2.2.2.2.2⟩
  · exact (h.2.2.2.2.1 0 (by decide)).1
  · exact h.2.2.2.2.2.1 0 ⟨Finset.range 3, {0}⟩ ⟨(Finset.range 3).erase 0, ∅⟩ 1
      ⟨(Finset.range 3).erase 0, {1}⟩ (by decide) (by decide) (by decide)

end Mure

namespace Mure

/-- The minimal entry is an element of the list. -/
theorem minPriorityEntry_mem {α : Type} :
    ∀ {q : List (Nat × α)} {e}, minPriorityEntry q = some e → e ∈ q := by
  intro q
  induction q with
  | nil =>
      intro e h
      exact Option.noConfusion h
  | cons f rest ih =>
      intro e h
      rw [minPriorityEntry] at h
      cases hm : minPriorityEntry rest with
      | none =>
          rw [hm] at h
          simp only [Option.some.injEq] at h
          exact h ▸ List.mem_cons_self f rest
      | some g =>
          rw [hm] at h
          by_cases hle : f.1 ≤ g.1
          · simp only [hle, if_true, Option.some.injEq] at h
            exact h ▸ List.mem_cons_self f rest
          · simp only [hle, if_false, Option.some.injEq] at h
            exact List.mem_cons_of_mem f (h ▸ ih hm)

/-- The popped entry is an element of the queue. -/
theorem popMin_mem {α : Type} {q : List (Nat × α)} {e rest}
    (h : popMin q = some (e, rest)) : e ∈ q := by
  rw [popMin] at h
  cases hm : minPriorityEntry q with
  | none =>
      rw [hm] at h
      exact Option.noConfusion h
  | some g =>
      rw [hm] at h
      simp only [Option.some.injEq, Prod.mk.injEq] at h
      exact h.1 ▸ minPriorityEntry_mem hm

/-- C7 (amended): `Queue.get(priority)` suspends on the priority's event
until the corresponding `put` has signalled it, and then returns the
response stored for that priority (popped as the minimal pending entry,
with the priority consumed).  After a successful `get(priority)` the
entry is gone from the priority queue, and any later `get(priority)`
never returns a response again: it returns `None` when everything has
been consumed, suspends on the empty queue, or raises (`ValueError` on a
priority mismatch, `KeyError` from `aconsume`) — the code has no
`SlotDrained` error. -/
theorem queue_get_behavior {α : Type} (s : Queue α) (p : Nat) :
    (s.consumption.isDone = false → p ∉ s.events → s.get p = (.blockedEvent, s))
    ∧ (∀ r rest c2, s.consumption.isDone = false → p ∈ s.events →
        popMin s.queue = some ((p, r), rest) →
        s.consumption.aconsume p = (Option.none, c2) →
        s.get p = (.ok r, { s with queue := rest, consumption := c2 }))
    ∧ ((∀ e ∈ s.queue, e.1 ≠ p) → ∀ r, (s.get p).1 ≠ GetOutcome.ok r) := by
  refine ⟨?_, ?_, ?_⟩
  · intro h1 h2
    simp [Queue.get, h1, h2]
  · intro r rest c2 h1 h2 h3 h4
    simp [Queue.get, h1, h2, h3, h4]
  · intro hall r
    by_cases hdone : s.consumption.isDone = true
    · simp [Queue.get, hdone]
    · by_cases hev : p ∈ s.events
      · cases hpop : popMin s.queue with
        | none => simp [Queue.get, hdone, hev, hpop]
        | some pr =>
            obtain ⟨e, rest⟩ := pr
            have hne : e.1 ≠ p := hall e (popMin_mem hpop)
            simp [Queue.get, hdone, hev, hpop, hne]
      · simp [Queue.get, hdone, hev]

/-- C7 counterexample: with one slot, `put(0)` then `get_next()` returns
the stored response; the subsequent `get(0)` returns `None` (consumption
is done) — it does not fail with any error, let alone a `SlotDrained`
one.  With two slots both put, the subsequent `get(0)` raises
`ValueError`, again not a `SlotDrained` error. -/
theorem queue_get_after_drain_counterexample :
    ((((Queue.init Nat 1).put 0 100).getNext).1 = GetOutcome.ok 100)
    ∧ (((((Queue.init Nat 1).put 0 100).getNext).2.get 0).1 = GetOutcome.finished)
    ∧ (((((Queue.init Nat 2).put 0 100).put 1 101).getNext).1 = GetOutcome.ok 100)
    ∧ ((((((Queue.init Nat 2).put 0 100).put 1 101).getNext).2.get 0).1
        = GetOutcome.error (.valueError "Inconsistency between priority and fetched item")) := by
  decide

/-- Witness for `queue_get_behavior`: a `get(0)` before `put(0)` blocks
on the event; a `get(0)` in the state reached by `put(0)` and scheduling
returns the stored response; a `get(0)` in the drained state never
returns a response. -/
theorem queue_get_behavior_witness :
    (Queue.get ⟨2, [(1, (101 : Nat))], {1}, ⟨Finset.range 2, ∅⟩⟩ 0
      = (GetOutcome.blockedEvent, ⟨2, [(1, 101)], {1}, ⟨Finset.range 2, ∅⟩⟩))
    ∧ (Queue.get ⟨1, [(0, (100 : Nat))], {0}, ⟨Finset.range 1, {0}⟩⟩ 0
      = (GetOutcome.ok 100,
         ⟨1, [], {0}, ⟨(Finset.range 1).erase 0, Finset.erase {0} 0⟩⟩))
    ∧ ((Queue.get ⟨1, [], {0}, ⟨∅, ∅⟩⟩ 0).1 ≠ GetOutcome.ok 100) := by
  have h1 := queue_get_behavior (⟨2, [(1, (101 : Nat))], {1}, ⟨Finset.range 2, ∅⟩⟩ : Queue Nat) 0
  have h2 := queue_get_behavior (⟨1, [(0, (100 : Nat))], {0}, ⟨Finset.range 1, {0}⟩⟩ : Queue Nat) 0
  have h3 := queue_get_behavior (⟨1, [], {0}, ⟨∅, ∅⟩⟩ : Queue Nat) 0
  refine ⟨h1.1 (by decide) (by decide), ?_, h3.2.2 (by decide) 100⟩
  exact h2.2.1 100 [] ⟨(Finset.range 1).erase 0, Finset.erase {0} 0⟩
    (by decide) (by decide) (by decide) (by decide)

end Mure

namespace Mure

/-- If every index `j < k` had been put by the time of the consumer's
`j`-th iteration, the first `k` pops removed exactly `{0, …, k-1}`. -/
theorem consumedUpTo_eq_range (P : Nat → Finset Nat) :
    ∀ k, (∀ j, j < k → j ∈ P j) → consumedUpTo P k = Finset.range k := by
  intro k
  induction k with
  | zero => intro _; rfl
  | succ k ih =>
      intro h
      have hC : consumedUpTo P k = Finset.range k :=
        ih (fun j hj => h j (Nat.lt_succ_of_lt hj))
      have hk : k ∈ P k := h k (Nat.lt_succ_self k)
      have hkA : k ∈ P k \ consumedUpTo P k := by
        rw [hC]
        exact Finset.mem_sdiff.mpr ⟨hk, by simp⟩
      have hne : (P k \ consumedUpTo P k).Nonempty := ⟨k, hkA⟩
      have hmin : (P k \ consumedUpTo P k).min' hne = k := by
        apply le_antisymm
        · exact Finset.min'_le _ k hkA
        · have hmem := (P k \ consumedUpTo P k).min'_mem hne
          have h2 := (Finset.mem_sdiff.mp hmem).2
          by_contra hlt
          push_neg at hlt
          exact h2 ((Finset.ext_iff.mp hC _).mpr (Finset.mem_range.mpr hlt))
      have hstep : consumedUpTo P (k + 1)
          = insert ((P k \ consumedUpTo P k).min' hne) (consumedUpTo P k) := by
        simp only [consumedUpTo, dif_pos hne]
      rw [hstep, hmin, hC, Finset.range_succ]

/-- Once slots `0, …, k-1` have been popped and slot `k`'s event has been
awaited (so its entry is in the queue), the minimal pending entry is
exactly slot `k`. -/
theorem yieldedIndexAt_eq_self (P : Nat → Finset Nat) (k : Nat)
    (hall : ∀ j, j ≤ k → j ∈ P j) : yieldedIndexAt P k = some k := by
  have hC : consumedUpTo P k = Finset.range k :=
    consumedUpTo_eq_range P k (fun j hj => hall j (Nat.le_of_lt hj))
  have hk : k ∈ P k := hall k (Nat.le_refl k)
  have hkA : k ∈ P k \ consumedUpTo P k := by
    rw [hC]
    exact Finset.mem_sdiff.mpr ⟨hk, by simp⟩
  have hne : (P k \ consumedUpTo P k).Nonempty := ⟨k, hkA⟩
  have hmin : (P k \ consumedUpTo P k).min' hne = k := by
    apply le_antisymm
    · exact Finset.min'_le _ k hkA
    · have hmem := (P k \ consumedUpTo P k).min'_mem hne
      have h2 := (Finset.mem_sdiff.mp hmem).2
      by_contra hlt
      push_neg at hlt
      exact h2 ((Finset.ext_iff.mp hC _).mpr (Finset.mem_range.mpr hlt))
  have hstep : yieldedIndexAt P k = some ((P k \ consumedUpTo P k).min' hne) := by
    simp only [yieldedIndexAt, dif_pos hne]
  rw [hstep, hmin]

/-- C1: for `n` input requests, and whatever order the worker tasks
complete in (`P k` is the arbitrary set of slots put by the consumer's
`k`-th pop; the awaited per-slot event guarantees `k ∈ P k`), draining
the iterator yields exactly `n` responses, and the `k`-th yielded
response is the response produced for the `k`-th request. -/
theorem delivery_order_and_length {α : Type} (n : Nat) (P : Nat → Finset Nat)
    (resp : Nat → α) (hready : ∀ k, k < n → k ∈ P k) :
    (drainedResponses n P resp).length = n
    ∧ ∀ k, k < n → (drainedResponses n P resp).getD k Option.none = some (resp k) := by
  constructor
  · simp [drainedResponses]
  · intro k hk
    have hyield : yieldedIndexAt P k = some k :=
      yieldedIndexAt_eq_self P k (fun j hj => hready j (lt_of_le_of_lt hj hk))
    rw [drainedResponses, List.getD_eq_getD_get?, List.get?_map, List.get?_range hk]
    simp [hyield]

/-- Witness for `delivery_order_and_length` with three requests whose
workers have all completed (in any order — the puts form a set): delivery
is `resp 0`, `resp 1`, `resp 2`. -/
theorem delivery_order_witness :
    (drainedResponses 3 (fun _ => Finset.range 3) (fun k => 100 + k)).length = 3
    ∧ (drainedResponses 3 (fun _ => Finset.range 3) (fun k => 100 + k)).getD 0 Option.none
        = some 100
    ∧ (drainedResponses 3 (fun _ => Finset.range 3) (fun k => 100 + k)).getD 1 Option.none
        = some 101
    ∧ (drainedResponses 3 (fun _ => Finset.range 3) (fun k => 100 + k)).getD 2 Option.none
        = some 102 := by
  have h := delivery_order_and_length 3 (fun _ => Finset.range 3) (fun k => 100 + k)
    (by decide)
  exact ⟨h.1, h.2 0 (by decide), h.2 1 (by decide), h.2 2 (by decide)⟩

end Mure

namespace Models

open Py

/-- C6 (amended): `Response.text` decodes with the declared encoding
first (when that encoding is known, the detector is never consulted); if
the declared encoding is missing (`TypeError`) or unknown
(`LookupError`), the byte-level charset detector runs on the content and
its best match is used for decoding; but when the detector finds no
encoding, reading `text` raises `ValueError` — there is no final UTF-8
fallback in `Response.text`. -/
theorem response_text_encoding_resolution (r : Response)
    (det : List Nat → Option String) :
    (∀ t, bytesDecode r.encoding r.content = .ok t → ∀ det2, r.text det2 = .ok t)
    ∧ (∀ e enc, bytesDecode r.encoding r.content = .error e →
        ((∃ m, e = PyErr.typeError m) ∨ (∃ m, e = PyErr.lookupError m)) →
        det r.content = some enc → r.text det = bytesDecode (some enc) r.content)
    ∧ (∀ e, bytesDecode r.encoding r.content = .error e →
        ((∃ m, e = PyErr.typeError m) ∨ (∃ m, e = PyErr.lookupError m)) →
        det r.content = Option.none →
        r.text det = .error (.valueError "Unable to detect encoding for response content")) := by
  refine ⟨?_, ?_, ?_⟩
  · intro t ht det2
    rw [Response.text, ht]
  · intro e enc he hshape hdet
    rw [Response.text, he]
    rcases hshape with ⟨m, rfl⟩ | ⟨m, rfl⟩ <;> simp [hdet]
  · intro e he hshape hdet
    rw [Response.text, he]
    rcases hshape with ⟨m, rfl⟩ | ⟨m, rfl⟩ <;> simp [hdet]

/-- C6 counterexample: a response whose declared encoding is absent and
whose content the detector cannot classify — reading `text` raises
`ValueError` rather than falling back to UTF-8 with `errors="replace"`. -/
theorem response_text_raises_counterexample :
    Models.Response.text ⟨false, 200, some "OK", "", [255], Option.none, []⟩
        (fun _ => Option.none)
      = .error (.valueError "Unable to detect encoding for response content") := rfl

/-- Witness for `response_text_encoding_resolution`: a known declared
encoding is used directly (whatever the detector would say); with no
declared encoding the detector's match decodes the content; with an
unknown declared encoding and no detector match, `ValueError`. -/
theorem response_text_encoding_resolution_witness :
    (Models.Response.text ⟨true, 200, some "OK", "u", [97], some "utf-8", []⟩
        (fun _ => some "latin-1") = .ok "a")
    ∧ (Models.Response.text ⟨true, 200, some "OK", "u", [233], Option.none, []⟩
        (fun _ => some "latin-1") = .ok "é")
    ∧ (Models.Response.text ⟨true, 200, some "OK", "u", [255], some "bogus", []⟩
        (fun _ => Option.none)
      = .error (.valueError "Unable to detect encoding for response content")) := by
  have h1 := response_text_encoding_resolution
    ⟨true, 200, some "OK", "u", [97], some "utf-8", []⟩ (fun _ => some "latin-1")
  have h2 := response_text_encoding_resolution
    ⟨true, 200, some "OK", "u", [233], Option.none, []⟩ (fun _ => some "latin-1")
  have h3 := response_text_encoding_resolution
    ⟨true, 200, some "OK", "u", [255], some "bogus", []⟩ (fun _ => Option.none)
  refine ⟨h1.1 "a" rfl _, ?_, ?_⟩
  · exact (h2.2.1 (.typeError "decode() argument 'encoding' must be str, not None")
      "latin-1" rfl (Or.inl ⟨_, rfl⟩) rfl).trans rfl
  · exact h3.2.2 (.lookupError "unknown encoding: bogus") rfl (Or.inr ⟨_, rfl⟩) rfl

end Models

namespace Iter

open Py

/-- C2: on any transport exception, the `except` branch of
`_asend_request` calls `mure.models.Response` with the keyword `text` —
which the constructor does not accept (and without the required
`encoding` and `headers`) — so the handler itself raises `TypeError`
instead of returning the synthetic `status=0` response; no synthetic
response can ever be produced by this branch. -/
theorem synthetic_response_construction_raises (errRepr : String) :
    Iter.asendRequestExceptBranch errRepr
        = .error (.typeError "__init__() got an unexpected keyword argument 'text'")
    ∧ ∀ r, Iter.asendRequestExceptBranch errRepr ≠ .ok r := by
  constructor
  · rfl
  · intro r h
    rw [show Iter.asendRequestExceptBranch errRepr
        = .error (.typeError "__init__() got an unexpected keyword argument 'text'")
      from rfl] at h
    exact Except.noConfusion h

end Iter

namespace Utils

open Py

/-- C8 counterexample: a batch whose only resource lacks `method` passes
the construction boundary without any error — the `KeyError` is raised
only when the first batch is processed during iteration. -/
theorem request_missing_method_not_construction_error :
    (Utils.request (.list [{ url := some "https://httpbin.org/get" }]) 5
        = .ok ⟨[{ url := some "https://httpbin.org/get" }], 5, 1⟩)
    ∧ (Utils.firstBatchOutcome (fun _ _ _ => (0 : Nat))
          ⟨[{ url := some "https://httpbin.org/get" }], 5, 1⟩
        = .error (.keyError "'method' is not defined for the given resource")) :=
  ⟨rfl, rfl⟩

/-- C8 (amended): a wrong top-level type (no `len()`) does raise
`TypeError` at the construction boundary, but a missing `url` or
`method` does not: construction succeeds for every list of resources,
and the `KeyError` is raised when the resource is processed during
iteration — before its HTTP interaction is attempted (the outcome is
independent of the transport). -/
theorem usage_error_timing {α : Type}
    (send send2 : String → String → List (String × PyVal) → α)
    (rs : List UResource) (bs : Nat) (t : String) (r : UResource) :
    (Utils.request (.list rs) bs = .ok ⟨rs, bs, rs.length⟩)
    ∧ (Utils.request (.unsized t) bs
        = .error (.typeError ("object of type '" ++ t ++ "' has no len()")))
    ∧ (r.method = Option.none →
        Utils.uprocess send r
          = .error (.keyError "'method' is not defined for the given resource"))
    ∧ (∀ m, r.method = some m → r.url = Option.none →
        Utils.uprocess send r
          = .error (.keyError "'url' is not defined for the given resource"))
    ∧ ((r.method = Option.none ∨ r.url = Option.none) →
        Utils.uprocess send r = Utils.uprocess send2 r) := by
  refine ⟨rfl, rfl, ?_, ?_, ?_⟩
  · intro h
    rw [Utils.uprocess, h]
  · intro m hm hu
    rw [Utils.uprocess, hm, hu]
  · intro h
    rcases h with h | h
    · rw [Utils.uprocess, h, Utils.uprocess, h]
    · cases hm : r.method with
      | none => rw [Utils.uprocess, hm, Utils.uprocess, hm]
      | some m => rw [Utils.uprocess, hm, h, Utils.uprocess, hm, h]

/-- Witness for `usage_error_timing` at concrete resources. -/
theorem usage_error_timing_witness :
    (Utils.request
        (.list [{ method := some "GET", url := some "https://httpbin.org/get" }]) 5
      = .ok ⟨[{ method := some "GET", url := some "https://httpbin.org/get" }], 5, 1⟩)
    ∧ (Utils.request (.unsized "generator") 5
        = .error (.typeError "object of type 'generator' has no len()"))
    ∧ (Utils.uprocess (fun _ _ _ => (0 : Nat)) { url := some "https://httpbin.org/get" }
        = .error (.keyError "'method' is not defined for the given resource"))
    ∧ (Utils.uprocess (fun _ _ _ => (0 : Nat)) { method := some "GET" }
        = .error (.keyError "'url' is not defined for the given resource"))
    ∧ (Utils.uprocess (fun _ _ _ => (0 : Nat)) { url := some "https://httpbin.org/get" }
        = Utils.uprocess (fun _ _ _ => (1 : Nat)) { url := some "https://httpbin.org/get" }) := by
  have h := usage_error_timing (fun _ _ _ => (0 : Nat)) (fun _ _ _ => (1 : Nat))
    [{ method := some "GET", url := some "https://httpbin.org/get" }] 5 "generator"
    { url := some "https://httpbin.org/get" }
  have h2 := usage_error_timing (fun _ _ _ => (0 : Nat)) (fun _ _ _ => (1 : Nat))
    [] 5 "generator" ({ method := some "GET" } : UResource)
  exact ⟨h.1, h.2.1, h.2.2.1 rfl, h2.2.2.2.1 "GET" rfl rfl, h.2.2.2.2 (Or.inl rfl)⟩

end Utils

namespace Iter

/-- Witness for `synthetic_response_construction_raises` at a concrete
transport error representation. -/
theorem synthetic_response_construction_raises_witness :
    Iter.asendRequestExceptBranch "ConnectError('failed')"
      = .error (.typeError "__init__() got an unexpected keyword argument 'text'") :=
  (synthetic_response_construction_raises "ConnectError('failed')").1

end Iter
